import Mathlib

/-!
Shallow Lean embedding of the core data-normalization logic of the
`alkoteka_parser` repository, together with theorems settling the frozen
claims about it.

The embedding covers:
* the scalar helper `calculate_discount` (items.py / alkoteka_spider.py);
* the three item pipelines `ValidationPipeline`, `DefaultValuesPipeline`,
  `DataCleaningPipeline` (pipelines.py), modelled over a `Record` structure
  holding the fields those pipelines and the claims touch;
* the characteristics merge `_extract_characteristics` (alkoteka_spider.py),
  parametrized by the outputs of its four per-source extractors (page
  querying is external);
* the variant counting `_detect_variants` / `_extract_variants_from_json` /
  `_validate_variant` (alkoteka_spider.py), parametrized by the raw label
  lists the CSS selectors produce;
* the proxy rotation of `ProxyMiddleware` (middlewares.py).

Python conventions are made explicit: a mapping key is `absent`, present
with value `None` (`null`), or present with a value (`val v`); truthiness of
strings/numbers/lists/dicts is non-emptiness / non-zeroness; `int()` on a
float truncates toward zero; `str.strip` / `str.split` act on whitespace.
Machine floats are modelled by `Rat` (the values involved are decimal
literals and the code only compares and copies them).
-/

/-- Python-style three-state field of a mapping: the key may be absent,
present with value `None`, or present with a proper value. -/
inductive F3 (α : Type) where
  | absent : F3 α
  | null : F3 α
  | val : α → F3 α
deriving DecidableEq, Repr

namespace F3

/-- Python `adapter.get(key)`: `None` for an absent key or a `None` value. -/
def get : F3 α → Option α
  | absent => none
  | null => none
  | val v => some v

/-- Python `key in adapter`. -/
def isPresent : F3 α → Bool
  | absent => false
  | _ => true

end F3

/-- Python whitespace characters recognised by `str.strip` / `str.split`
(the ASCII ones; the records at hand contain no exotic Unicode spaces). -/
def pyWs (c : Char) : Bool :=
  c = ' ' || c = '\t' || c = '\n' || c = '\r' || c = '\x0b' || c = '\x0c'

/-- Python `str.strip()` on a character list. -/
def pyStripChars (l : List Char) : List Char :=
  ((l.dropWhile pyWs).reverse.dropWhile pyWs).reverse

/-- Python `str.strip()`. -/
def pyStrip (s : String) : String :=
  ⟨pyStripChars s.data⟩

/-- Python `str.lower()` restricted to ASCII letters and the basic Cyrillic
block (the only cased characters occurring in the code's keyword lists). -/
def pyLowerChar (c : Char) : Char :=
  if 'A' ≤ c ∧ c ≤ 'Z' then Char.ofNat (c.toNat + 32)
  else if 'А' ≤ c ∧ c ≤ 'Я' then Char.ofNat (c.toNat + 32)
  else if c = 'Ё' then 'ё'
  else c

/-- Python `str.lower()`. -/
def pyLower (s : String) : String :=
  ⟨s.data.map pyLowerChar⟩

/-- Whitespace tokenisation, accumulator-based: the tokens of Python
`str.split()` (splits on whitespace runs, drops empty pieces). -/
def wsTokensAux : List Char → List Char → List (List Char)
  | [], acc => if acc.isEmpty then [] else [acc.reverse]
  | c :: cs, acc =>
    if pyWs c then
      if acc.isEmpty then wsTokensAux cs [] else acc.reverse :: wsTokensAux cs []
    else wsTokensAux cs (c :: acc)

/-- Python `s.split()` on a character list. -/
def wsTokens (l : List Char) : List (List Char) :=
  wsTokensAux l []

/-- Python `' '.join(s.split())`: collapse whitespace runs to single spaces
and trim — the string normalisation used by `DataCleaningPipeline`. -/
def collapseWs (s : String) : String :=
  ⟨List.intercalate [' '] (wsTokens s.data)⟩

/-- Python `int()` truncation toward zero on a rational. -/
def pyInt (q : Rat) : Int :=
  Int.tdiv q.num (q.den : Int)

/-- Floor of a rational (used to state the claim's `round_down`). -/
def ratFloor (q : Rat) : Int :=
  Int.fdiv q.num (q.den : Int)

/-- Python `max(a, b)` on numbers. -/
def pyMax (a b : Rat) : Rat := if a ≤ b then b else a

/-- Python `min(a, b)` on numbers. -/
def pyMin (a b : Rat) : Rat := if b ≤ a then b else a

/-- `calculate_discount` from `items.py` (identical to
`AlkotekaSpider._calculate_discount`):
`None` when either operand is falsy (`None` or `0`) or `original <= 0`,
otherwise `int(max(0, min(100, (original - current) / original * 100)))`. -/
def calculate_discount (original current : Option Rat) : Option Int :=
  match original, current with
  | some o, some c =>
    if o = 0 ∨ c = 0 ∨ o ≤ 0 then none
    else some (pyInt (pyMax 0 (pyMin 100 ((o - c) / o * 100))))
  | _, _ => none

theorem pyInt_eq_ratFloor_of_nonneg (q : Rat) (h : 0 ≤ q) : pyInt q = ratFloor q := by
  unfold pyInt ratFloor
  rw [Int.fdiv_eq_tdiv (Rat.num_nonneg.mpr h) (Int.ofNat_nonneg q.den)]

/-- Decidable equality for `Except`, so concrete pipeline runs can be
checked by `decide`. -/
instance {ε α : Type} [DecidableEq ε] [DecidableEq α] : DecidableEq (Except ε α) := fun x y =>
  match x, y with
  | Except.ok a, Except.ok b =>
    if h : a = b then Decidable.isTrue (by rw [h])
    else Decidable.isFalse (fun hh => h (Except.ok.inj hh))
  | Except.error a, Except.error b =>
    if h : a = b then Decidable.isTrue (by rw [h])
    else Decidable.isFalse (fun hh => h (Except.error.inj hh))
  | Except.ok _, Except.error _ => Decidable.isFalse (fun hh => Except.noConfusion hh)
  | Except.error _, Except.ok _ => Decidable.isFalse (fun hh => Except.noConfusion hh)

/-! ## Record model for the item pipelines

`Record` models the subset of `ProductItem` fields that the three pipelines
in `pipelines.py` manipulate and that the verified properties concern.
Field values carry their declared Python types (numbers as `Rat`); each
field is an `F3` so that an absent key, an explicit `None` and a proper
value are distinguished, exactly as `ItemAdapter` distinguishes them. -/

/-- Nested `price_data` mapping (`PriceDataItem` in `items.py`).
`extraKeys` counts keys other than the four declared ones, so that Python
dict truthiness (non-emptiness) is modelled faithfully. -/
structure PriceData where
  current : F3 Rat
  original : F3 Rat
  sale_tag : F3 String
  currency : F3 String
  extraKeys : Nat
deriving DecidableEq, Repr

/-- Python truthiness of the `price_data` dict: it has at least one key
(keys with a `None` value count as present). -/
def PriceData.truthy (pd : PriceData) : Bool :=
  pd.current.isPresent || pd.original.isPresent || pd.sale_tag.isPresent ||
    pd.currency.isPresent || pd.extraKeys != 0

/-- Nested `stock_data` mapping (`StockItem` in `items.py`). -/
structure StockData where
  in_stock : F3 Bool
  count : F3 Rat
  status : F3 String
  available_regions : F3 (List String)
  extraKeys : Nat
deriving DecidableEq, Repr

def StockData.truthy (sd : StockData) : Bool :=
  sd.in_stock.isPresent || sd.count.isPresent || sd.status.isPresent ||
    sd.available_regions.isPresent || sd.extraKeys != 0

/-- Nested `assets` mapping (`AssetsItem` in `items.py`). -/
structure Assets where
  main_image : F3 String
  gallery_images : F3 (List String)
  view_360 : F3 (List String)
  video : F3 (List String)
  cached_images : F3 (List String)
  extraKeys : Nat
deriving DecidableEq, Repr

def Assets.truthy (a : Assets) : Bool :=
  a.main_image.isPresent || a.gallery_images.isPresent || a.view_360.isPresent ||
    a.video.isPresent || a.cached_images.isPresent || a.extraKeys != 0

/-- The product record as the pipelines see it. -/
structure Record where
  product_id : F3 String
  name : F3 String
  product_url : F3 String
  scraped_at : F3 Int
  price_data : F3 PriceData
  stock_data : F3 StockData
  assets : F3 Assets
  price : F3 Rat
  original_price : F3 Rat
  rating : F3 Rat
  discount_percentage : F3 Rat
  tags : F3 (List String)
  marketing_tags : F3 (List String)
  image_urls : F3 (List String)
deriving DecidableEq, Repr

/-- Python truthiness of `adapter.get(field)` for a string field:
the key is present with a non-`None`, non-empty value. -/
def F3.truthyStr : F3 String → Bool
  | F3.val s => !s.isEmpty
  | _ => false

/-- Python truthiness of `adapter.get(field)` for an int field. -/
def F3.truthyInt : F3 Int → Bool
  | F3.val n => n != 0
  | _ => false

/-! ## Stage 1: `ValidationPipeline.process_item` (pipelines.py) -/

/-- The error messages accumulated by the required-field loop, in the
iteration order of `self.required_fields`. -/
def requiredFieldErrors (r : Record) : List String :=
  (if r.product_id.truthyStr then [] else ["Missing required field: product_id"]) ++
  (if r.name.truthyStr then [] else ["Missing required field: name"]) ++
  (if r.product_url.truthyStr then [] else ["Missing required field: product_url"]) ++
  (if r.scraped_at.truthyInt then [] else ["Missing required field: scraped_at"])

/-- The nested price clamp of Stage 1: if `current` and `original` are both
non-`None`, both truthy (non-zero) and `current > original`, `current` is
overwritten with `original` (the dict spread keeps the other keys); only a
truthy `price_data` dict is examined. -/
def clampPriceData (f : F3 PriceData) : F3 PriceData :=
  match f with
  | F3.val pd =>
    if pd.truthy then
      match pd.current.get, pd.original.get with
      | some c, some o =>
        if c ≠ 0 ∧ o ≠ 0 ∧ o < c then F3.val { pd with current := F3.val o } else f
      | _, _ => f
    else f
  | _ => f

/-- The negative stock-count repair of Stage 1. -/
def clampStockData (f : F3 StockData) : F3 StockData :=
  match f with
  | F3.val sd =>
    if sd.truthy then
      match sd.count.get with
      | some c => if c < 0 then F3.val { sd with count := F3.val 0 } else f
      | none => f
    else f
  | _ => f

/-- The top-level price clamp of Stage 1: applied whenever both scalar
fields are non-`None` and `price > original_price`. -/
def clampTopPrice (price original_price : F3 Rat) : F3 Rat :=
  match price.get, original_price.get with
  | some p, some o => if o < p then F3.val o else price
  | _, _ => price

/-- `ValidationPipeline.process_item`: reject (DropItem) with the aggregated
error list when any required field is absent or falsy, otherwise apply the
three in-place repairs and pass the record on. The code performs the three
repairs sequentially; they read and write pairwise disjoint fields, so the
simultaneous update below is the same function. -/
def ValidationPipeline.process_item (r : Record) : Except (List String) Record :=
  let errors := requiredFieldErrors r
  if errors.isEmpty then
    Except.ok { r with
      price_data := clampPriceData r.price_data
      stock_data := clampStockData r.stock_data
      price := clampTopPrice r.price r.original_price }
  else
    Except.error errors

/-! ## Stage 2: `DefaultValuesPipeline.process_item` (pipelines.py)

Of the `self.defaults` map only the entries for fields present in our
`Record` are modelled (`marketing_tags`, `tags`, `image_urls` → fresh empty
lists); the remaining defaults concern fields no verified property touches.
The nested sub-default passes are modelled in full. -/

/-- Top-level defaulting of one list field: absent or `None` becomes a
fresh empty list. -/
def defaultList (f : F3 (List String)) : F3 (List String) :=
  match f.get with
  | none => F3.val []
  | some _ => f

/-- The `price_data` sub-default pass: `currency` is set to `"RUB"` when
absent or falsy, `sale_tag` is set to explicit `None` when the key is
absent; the pass runs only when `price_data` is a truthy dict. -/
def defaultPriceData (f : F3 PriceData) : F3 PriceData :=
  match f with
  | F3.val pd =>
    if pd.truthy then
      F3.val { pd with
        currency := if pd.currency.get.any (fun s => !s.isEmpty) then pd.currency else F3.val "RUB"
        sale_tag := if pd.sale_tag.isPresent then pd.sale_tag else F3.null }
    else f
  | _ => f

/-- The `assets` sub-default pass (`defaults_assets` in the code): list
sub-keys default to fresh `[]`, `main_image` to explicit `None`. -/
def defaultAssets (f : F3 Assets) : F3 Assets :=
  match f with
  | F3.val a =>
    if a.truthy then
      F3.val { a with
        main_image := if a.main_image.get.isSome then a.main_image else F3.null
        gallery_images := defaultList a.gallery_images
        view_360 := defaultList a.view_360
        video := defaultList a.video
        cached_images := defaultList a.cached_images }
    else f
  | _ => f

/-- The `stock_data` sub-default pass (`defaults_stock` in the code). -/
def defaultStockData (f : F3 StockData) : F3 StockData :=
  match f with
  | F3.val sd =>
    if sd.truthy then
      F3.val { sd with
        in_stock := if sd.in_stock.get.isSome then sd.in_stock else F3.val false
        count := if sd.count.get.isSome then sd.count else F3.val 0
        status := if sd.status.get.isSome then sd.status else F3.val "unknown"
        available_regions := if sd.available_regions.get.isSome then sd.available_regions
          else F3.val [] }
    else f
  | _ => f

/-- `DefaultValuesPipeline.process_item`; `now` models `int(time.time())`,
used only when `scraped_at` is still absent or `None`. -/
def DefaultValuesPipeline.process_item (now : Int) (r : Record) : Record :=
  { r with
    marketing_tags := defaultList r.marketing_tags
    tags := defaultList r.tags
    image_urls := defaultList r.image_urls
    scraped_at := if r.scraped_at.get.isSome then r.scraped_at else F3.val now
    price_data := defaultPriceData r.price_data
    assets := defaultAssets r.assets
    stock_data := defaultStockData r.stock_data }

/-! ## Stage 3: `DataCleaningPipeline.process_item` (pipelines.py) -/

/-- Order-preserving exact-value deduplication: Python
`list(dict.fromkeys(xs))`. -/
def pyDedupAux (seen : List String) : List String → List String
  | [] => []
  | x :: xs => if x ∈ seen then pyDedupAux seen xs else x :: pyDedupAux (x :: seen) xs

/-- Python `list(dict.fromkeys(xs))`. -/
def pyDedup (xs : List String) : List String :=
  pyDedupAux [] xs

/-- Code-point comparison of strings, as Python `sorted` orders `str`. -/
def chLe : List Char → List Char → Bool
  | [], _ => true
  | _ :: _, [] => false
  | a :: as, b :: bs =>
    if a.toNat < b.toNat then true
    else if b.toNat < a.toNat then false
    else chLe as bs

def strLe (a b : String) : Bool :=
  chLe a.data b.data

/-- Insertion into a `strLe`-sorted list. -/
def insertSorted (x : String) : List String → List String
  | [] => [x]
  | y :: ys => if strLe x y then x :: y :: ys else y :: insertSorted x ys

/-- Python `sorted` on a list of strings (insertion sort; on the
duplicate-free lists it is applied to, the result is the unique sorted
arrangement, so the algorithm choice is immaterial). -/
def sortStrs : List String → List String
  | [] => []
  | x :: xs => insertSorted x (sortStrs xs)

/-- The tag cleaning shared by `marketing_tags` (via `set`) and `tags`
(via `dict.fromkeys`): keep truthy entries, strip them, drop duplicates
(exact comparison), sort. `set`'s iteration order is unspecified, but
`sorted` of a duplicate-free collection is determined by its elements, so
first-occurrence deduplication models both variants. -/
def cleanTags (xs : List String) : List String :=
  sortStrs (pyDedup ((xs.filter (fun t => !t.isEmpty)).map pyStrip))

/-- Cleaning of one tag-like list field: only a truthy (non-empty) list is
processed. -/
def cleanTagField (f : F3 (List String)) : F3 (List String) :=
  match f with
  | F3.val (x :: xs) => F3.val (cleanTags (x :: xs))
  | _ => f

/-- Cleaning of one URL-list field: order-preserving deduplication, only on
a truthy list. -/
def cleanUrlField (f : F3 (List String)) : F3 (List String) :=
  match f with
  | F3.val (x :: xs) => F3.val (pyDedup (x :: xs))
  | _ => f

/-- The assets cleaning pass: each present list sub-key is deduplicated
preserving order (the pass runs only when `assets` is truthy). -/
def cleanAssets (f : F3 Assets) : F3 Assets :=
  match f with
  | F3.val a =>
    if a.truthy then
      F3.val { a with
        gallery_images := match a.gallery_images with
          | F3.val g => F3.val (pyDedup g)
          | x => x
        view_360 := match a.view_360 with
          | F3.val g => F3.val (pyDedup g)
          | x => x
        video := match a.video with
          | F3.val g => F3.val (pyDedup g)
          | x => x
        cached_images := match a.cached_images with
          | F3.val g => F3.val (pyDedup g)
          | x => x }
    else f
  | _ => f

/-- Numeric cleaning of `price` / `original_price`: a present negative
value is set to 0. -/
def cleanNonneg (f : F3 Rat) : F3 Rat :=
  match f.get with
  | some p => if p < 0 then F3.val 0 else f
  | none => f

/-- Numeric cleaning of `rating`: a present out-of-range value is cleared
to `None` (never clamped). -/
def cleanRating (f : F3 Rat) : F3 Rat :=
  match f.get with
  | some v => if v < 0 ∨ 5 < v then F3.null else f
  | none => f

/-- Numeric cleaning of `discount_percentage`: the code computes
`int(value)` and, when that truncation is out of `[0,100]`, stores 0;
otherwise the original (possibly fractional) value is left in place. -/
def cleanDiscount (f : F3 Rat) : F3 Rat :=
  match f.get with
  | some v => if pyInt v < 0 ∨ 100 < pyInt v then F3.val 0 else f
  | none => f

/-- `DataCleaningPipeline.process_item`. Of `string_fields` only `name`
exists in our `Record`; the `attributes` and `description` passes concern
fields outside it. -/
def DataCleaningPipeline.process_item (r : Record) : Record :=
  { r with
    name := match r.name with
      | F3.val s => F3.val (collapseWs s)
      | x => x
    marketing_tags := cleanTagField r.marketing_tags
    tags := cleanTagField r.tags
    image_urls := cleanUrlField r.image_urls
    assets := cleanAssets r.assets
    price := cleanNonneg r.price
    original_price := cleanNonneg r.original_price
    rating := cleanRating r.rating
    discount_percentage := cleanDiscount r.discount_percentage }

/-- The three-stage normalization entry point: Stage 1 either rejects or
passes the repaired record to Stage 2 and Stage 3 (`normalize` in the
spec's interface). -/
def Pipelines.normalize (now : Int) (r : Record) : Except (List String) Record :=
  (ValidationPipeline.process_item r).map
    (fun r1 => DataCleaningPipeline.process_item (DefaultValuesPipeline.process_item now r1))

/-! ## Characteristics extraction: `AlkotekaSpider._extract_characteristics`

The four per-source extractors (`_parse_table_characteristics`,
`_parse_list_characteristics`, `_parse_div_characteristics`,
`_extract_jsonld_characteristics`) query the page, which is an external
collaborator; their outputs are Python dicts of string pairs, modelled as
association lists with unique keys. Only the combination logic is embedded. -/

/-- A Python `str → str` dict as an insertion-ordered association list. -/
abbrev PyDict := List (String × String)

/-- `d[k] = v` for a single pair (Python dict assignment): overwrite the
entry with that key in place if it exists, append otherwise. The
association lists stand for Python dicts, so keys occur at most once. -/
def dictSet : PyDict → String × String → PyDict
  | [], kv => [kv]
  | e :: d, kv => if e.1 = kv.1 then (e.1, kv.2) :: d else e :: dictSet d kv

/-- Python `d.update(other)`: assign every pair of `other` in order. -/
def dictUpdate (d other : PyDict) : PyDict :=
  other.foldl dictSet d

/-- Python `d.get(k)` on an association list. -/
def dictGet : PyDict → String → Option String
  | [], _ => none
  | e :: d, k => if k = e.1 then some e.2 else dictGet d k

/-- `AlkotekaSpider._extract_characteristics`, parametrized by the outputs
of its four sources: start from the table source; the list source is
consulted only if the result is still empty, the div source only if it is
empty after that; finally the structured-data (JSON-LD) source is always
merged in with `dict.update`. -/
def extract_characteristics (table listC div jsonld : PyDict) : PyDict :=
  let c := dictUpdate [] table
  let c := if c.isEmpty then dictUpdate c listC else c
  let c := if c.isEmpty then dictUpdate c div else c
  dictUpdate c jsonld

/-! ## Variant detection: `AlkotekaSpider._detect_variants` and helpers -/

/-- Python `s in t` substring test on strings. -/
def strContains (t pat : String) : Bool :=
  t.data.tails.any (fun l => pat.data.isPrefixOf l)

/-- The bilingual clothing/apparel keyword exclusion list of
`_validate_variant` (`invalid_keywords` in the code). -/
def invalidKeywords : List String :=
  ["размер", "size", "одежда", "clothing", "shirt", "pants", "dress",
   "обувь", "shoe", "носок", "sock",
   "width", "длина", "height", "высота",
   "material", "материал", "ткань", "fabric",
   "large", "small", "medium", "extra"]

def sizeTokens : List String := ["xs", "s", "m", "l", "xl", "xxl"]

/-- Whether `re.match` succeeds for `^\s*(xs|s|m|l|xl|xxl)\s*$` — on an
already lower-cased and stripped string this is membership in the token
list. -/
def sizePattern1 (normalized : String) : Bool :=
  sizeTokens.any (fun t =>
    let l := normalized.data
    let l := l.dropWhile pyWs
    t.data.isPrefixOf l && ((l.drop t.length).dropWhile pyWs).isEmpty)

/-- Whether `re.match` succeeds for `size\s+(xs|s|m|l|xl|xxl)`: the string
starts with `size`, then at least one whitespace, then one of the tokens
(no trailing anchor). -/
def sizePattern2 (normalized : String) : Bool :=
  let l := normalized.data
  "size".data.isPrefixOf l &&
    (let rest := l.drop 4
     !rest.isEmpty && pyWs (rest.headD ' ') &&
       sizeTokens.any (fun t => t.data.isPrefixOf (rest.dropWhile pyWs)))

/-- Whether `re.match` succeeds for `(xs|s|m|l|xl|xxl)\s*size`: the string
starts with one of the tokens, then optional whitespace, then `size`. -/
def sizePattern3 (normalized : String) : Bool :=
  sizeTokens.any (fun t =>
    let l := normalized.data
    t.data.isPrefixOf l && "size".data.isPrefixOf ((l.drop t.length).dropWhile pyWs))

/-- `AlkotekaSpider._validate_variant`: reject empty or >100-character
labels, labels containing a clothing keyword, labels matching a standalone
size-token pattern, and generic placeholder labels. -/
def validate_variant (variant : String) : Bool :=
  let normalized := pyStrip (pyLower variant)
  if normalized.isEmpty || normalized.length > 100 then false
  else if invalidKeywords.any (fun kw => strContains normalized kw) then false
  else if sizePattern1 normalized || sizePattern2 normalized || sizePattern3 normalized then false
  else if normalized = "select" || normalized = "выбрать" ||
      normalized = "choose" || normalized = "выбор" then false
  else true

/-- The parsed embedded variants JSON, as `_extract_variants_from_json`
case-splits on it: a dict with a `variants` list, a dict with an `options`
list (checked only when `variants` is missing), a bare list, any other
parsed value, or no parseable JSON at all. List entries stand for the
`str(v)` of the corresponding Python values. -/
inductive VariantsJson where
  | dictVariants (entries : List String)
  | dictOptions (entries : List String)
  | bareList (entries : List String)
  | otherValue
  | noJson
deriving DecidableEq, Repr

/-- `AlkotekaSpider._extract_variants_from_json`: the count of entries of
the embedded list that pass `_validate_variant`, or 0 when there is no
parseable list. -/
def extract_variants_from_json : VariantsJson → Nat
  | VariantsJson.dictVariants es => (es.filter validate_variant).length
  | VariantsJson.dictOptions es => (es.filter validate_variant).length
  | VariantsJson.bareList es => (es.filter validate_variant).length
  | VariantsJson.otherValue => 0
  | VariantsJson.noJson => 0

/-- Python `set` union of the volume and color variant label lists
(first-occurrence deduplication; only the element count matters). -/
def variantSet (volume color : List String) : List String :=
  pyDedup (volume ++ color)

/-- `AlkotekaSpider._detect_variants`, parametrized by the label lists
returned by `_extract_volume_variants` / `_extract_color_variants` and the
parsed embedded JSON: a positive JSON-derived count is returned as-is,
otherwise the validated markup-derived set is counted. -/
def detect_variants (volume color : List String) (json : VariantsJson) : Nat :=
  let variants := variantSet volume color
  let jsonCount := extract_variants_from_json json
  if jsonCount > 0 then jsonCount
  else (variants.filter validate_variant).length

/-! ## Proxy pool: `ProxyMiddleware` (middlewares.py)

The middleware state is the tuple of fields set in `__init__`; `cycle` over
the loaded proxy list is modelled by an ever-increasing cursor indexing the
list modulo its length. The blacklist `set` is a duplicate-free list. -/

structure ProxyState where
  enabled : Bool
  proxies : List String
  cursor : Nat
  blacklist : List String
  total : Nat
  success : Nat
  failed : Nat
deriving DecidableEq, Repr

/-- Python `set.add`. -/
def blAdd (bl : List String) (p : String) : List String :=
  if p ∈ bl then bl else p :: bl

/-- The scan loop of `_get_next_proxy`: at most `fuel` blacklisted proxies
are skipped (the code bounds `attempts` by `len(self.proxies)`), each
`next()` advancing the cycle cursor; a non-blacklisted proxy is returned
as soon as it is reached. -/
def getNextAux (proxies blacklist : List String) : Nat → Nat → Option String × Nat
  | cursor, 0 => (none, cursor)
  | cursor, fuel + 1 =>
    let p := proxies.getD (cursor % proxies.length) ""
    if p ∈ blacklist then getNextAux proxies blacklist (cursor + 1) fuel
    else (some p, cursor + 1)

namespace ProxyMiddleware

/-- Whether `self.proxy_pool` was created at init: the middleware is
enabled and the loaded proxy list is non-empty. -/
def hasPool (s : ProxyState) : Bool :=
  s.enabled && !s.proxies.isEmpty

/-- `_get_next_proxy` (the pool's `acquire`): `None` without a pool,
otherwise the scan loop starting at the current cursor. -/
def get_next_proxy (s : ProxyState) : Option String × ProxyState :=
  if hasPool s then
    let r := getNextAux s.proxies s.blacklist s.cursor s.proxies.length
    (r.1, { s with cursor := r.2 })
  else (none, s)

/-- The proxy bookkeeping of `process_response` (the pool's
`report_success` for the proxy attached to the request): count the success
and remove the proxy from the blacklist if it was there (`set.discard`). -/
def process_response (s : ProxyState) (p : String) : ProxyState :=
  { s with success := s.success + 1, blacklist := s.blacklist.filter (fun x => x ≠ p) }

/-- The proxy bookkeeping of `process_exception` (the pool's
`report_failure`): blacklist the proxy and count the failure. -/
def process_exception (s : ProxyState) (p : String) : ProxyState :=
  { s with failed := s.failed + 1, blacklist := blAdd s.blacklist p }

end ProxyMiddleware

/-- An operation on the shared pool, for stating trace properties. -/
inductive PoolOp where
  | acquire : PoolOp
  | success (p : String) : PoolOp
  | failure (p : String) : PoolOp
deriving DecidableEq, Repr

/-- Run a sequence of pool operations. -/
def runOps (s : ProxyState) : List PoolOp → ProxyState
  | [] => s
  | PoolOp.acquire :: ops => runOps (ProxyMiddleware.get_next_proxy s).2 ops
  | PoolOp.success p :: ops => runOps (ProxyMiddleware.process_response s p) ops
  | PoolOp.failure p :: ops => runOps (ProxyMiddleware.process_exception s p) ops

/-! ## Claims -/

theorem pyMax_zero_nonneg (x : Rat) : 0 ≤ pyMax 0 x := by
  unfold pyMax
  split
  · assumption
  · exact le_refl 0

/-- C10: `calculate_discount(original, current)` returns absent iff either
operand is absent/zero or `original ≤ 0`, and otherwise returns
`round_down(clamp(0, 100, (original - current)/original * 100))`; in
particular `calculate_discount(1000, 750) = 25`,
`calculate_discount(0, 750)` is absent and
`calculate_discount(1000, 1000) = 0`. -/
theorem claim_C10 :
    (∀ o c : Option Rat, calculate_discount o c = none ↔
      (o = none ∨ o = some 0 ∨ c = none ∨ c = some 0 ∨ ∃ q, o = some q ∧ q ≤ 0)) ∧
    (∀ oq cq : Rat, oq ≠ 0 → cq ≠ 0 → 0 < oq →
      calculate_discount (some oq) (some cq)
        = some (ratFloor (pyMax 0 (pyMin 100 ((oq - cq) / oq * 100))))) ∧
    calculate_discount (some 1000) (some 750) = some 25 ∧
    calculate_discount (some 0) (some 750) = none ∧
    calculate_discount (some 1000) (some 1000) = some 0 := by
  refine ⟨?_, ?_, ?_, ?_, ?_⟩
  · intro o c
    match o, c with
    | none, none => simp [calculate_discount]
    | none, some cq => simp [calculate_discount]
    | some oq, none => simp [calculate_discount]
    | some oq, some cq =>
      constructor
      · intro h
        by_cases h0 : oq = 0 ∨ cq = 0 ∨ oq ≤ 0
        · rcases h0 with h0 | h0 | h0
          · exact Or.inr (Or.inl (by rw [h0]))
          · exact Or.inr (Or.inr (Or.inr (Or.inl (by rw [h0]))))
          · exact Or.inr (Or.inr (Or.inr (Or.inr ⟨oq, rfl, h0⟩)))
        · simp [calculate_discount, h0] at h
      · intro h
        have hcond : oq = 0 ∨ cq = 0 ∨ oq ≤ 0 := by
          rcases h with h | h | h | h | ⟨q, hq, hle⟩
          · exact absurd h (by simp)
          · exact Or.inl (Option.some.inj h)
          · exact absurd h (by simp)
          · exact Or.inr (Or.inl (Option.some.inj h))
          · exact Or.inr (Or.inr (Option.some.inj hq ▸ hle))
        simp [calculate_discount, hcond]
  · intro oq cq ho hc hpos
    have hcond : ¬ (oq = 0 ∨ cq = 0 ∨ oq ≤ 0) := by
      push_neg
      exact ⟨ho, hc, hpos⟩
    simp only [calculate_discount, hcond, if_false]
    rw [pyInt_eq_ratFloor_of_nonneg _ (pyMax_zero_nonneg _)]
  · with_unfolding_all decide
  · decide
  · with_unfolding_all decide

theorem claim_C10_witness :
    (1000 : Rat) ≠ 0 ∧ (750 : Rat) ≠ 0 ∧ (0 : Rat) < 1000 ∧
    calculate_discount (some 1000) (some 750)
      = some (ratFloor (pyMax 0 (pyMin 100 ((1000 - 750) / 1000 * 100)))) :=
  ⟨by decide, by decide, by decide,
   claim_C10.2.1 1000 750 (by decide) (by decide) (by decide)⟩

/-- C7 counterexample: the embedded JSON variants list `["select"]` is
present and parseable, but every entry fails `_validate_variant`, so its
validated count is 0; `_detect_variants` then falls back to the
markup-derived variants (here one valid volume label) and returns 1 instead
of the JSON-derived count — the JSON source does not supersede markup
detection when its validated count is zero. -/
theorem claim_C7_counterexample :
    extract_variants_from_json (VariantsJson.dictVariants ["select"]) = 0 ∧
    detect_variants ["500ml"] [] (VariantsJson.dictVariants ["select"]) = 1 ∧
    (1 : Nat) ≠ 0 := by decide

/-- C7 (amended): a present and parseable embedded JSON variants/options
list supersedes markup-derived detection — the final count being the count
of its entries that pass validation — exactly when that validated count is
positive; when every entry of the list fails validation the count falls
back to the validated markup-derived variant set. -/
theorem claim_C7 (volume color : List String) (j : VariantsJson) :
    (0 < extract_variants_from_json j →
      detect_variants volume color j = extract_variants_from_json j) ∧
    (extract_variants_from_json j = 0 →
      detect_variants volume color j
        = ((variantSet volume color).filter validate_variant).length) := by
  constructor
  · intro h
    simp [detect_variants, h]
  · intro h
    simp [detect_variants, h]

theorem claim_C7_witness :
    0 < extract_variants_from_json (VariantsJson.dictVariants ["750ml", "select"]) ∧
    detect_variants ["1L"] [] (VariantsJson.dictVariants ["750ml", "select"])
      = extract_variants_from_json (VariantsJson.dictVariants ["750ml", "select"]) :=
  ⟨by decide, (claim_C7 ["1L"] [] (VariantsJson.dictVariants ["750ml", "select"])).1 (by decide)⟩

/-- The combination of the table/list/div characteristic sources before the
JSON-LD merge, as `_extract_characteristics` builds it. -/
def preJsonldChars (t l d : PyDict) : PyDict :=
  let c := dictUpdate [] t
  let c := if c.isEmpty then dictUpdate c l else c
  if c.isEmpty then dictUpdate c d else c

theorem extract_characteristics_eq (t l d j : PyDict) :
    extract_characteristics t l d j = dictUpdate (preJsonldChars t l d) j := rfl

theorem dictGet_dictSet (d : PyDict) (k k' v : String) :
    dictGet (dictSet d (k', v)) k = if k = k' then some v else dictGet d k := by
  induction d with
  | nil =>
    by_cases h : k = k' <;> simp [dictSet, dictGet, h]
  | cons e d' ih =>
    by_cases h1 : e.1 = k'
    · by_cases h2 : k = k'
      · simp [dictSet, dictGet, h1, h2]
      · have hk : ¬ k = e.1 := fun hh => h2 (hh.trans h1)
        simp [dictSet, dictGet, h1, h2, hk]
    · by_cases h2 : k = e.1
      · have hk : ¬ k = k' := fun hh => h1 ((h2.symm.trans hh).symm ▸ rfl)
        simp [dictSet, dictGet, h1, h2, hk]
      · simp [dictSet, dictGet, h1, h2, ih]

theorem dictGet_eq_none_of_not_mem (j : PyDict) (k : String)
    (h : k ∉ j.map Prod.fst) : dictGet j k = none := by
  induction j with
  | nil => rfl
  | cons e j' ih =>
    simp only [List.map_cons, List.mem_cons, not_or] at h
    simp [dictGet, h.1, ih h.2]

theorem dictGet_dictUpdate (d j : PyDict) (hj : (j.map Prod.fst).Nodup) (k : String) :
    dictGet (dictUpdate d j) k
      = match dictGet j k with
        | some v => some v
        | none => dictGet d k := by
  induction j generalizing d with
  | nil => simp [dictUpdate, dictGet]
  | cons e j' ih =>
    obtain ⟨k₁, v₁⟩ := e
    simp only [List.map_cons, List.nodup_cons] at hj
    obtain ⟨hk₁, hj'⟩ := hj
    show dictGet (dictUpdate (dictSet d (k₁, v₁)) j') k = _
    rw [ih _ hj']
    by_cases h2 : k = k₁
    · subst h2
      have hfirst : dictGet ((k, v₁) :: j') k = some v₁ := by simp [dictGet]
      have hrest : dictGet j' k = none := dictGet_eq_none_of_not_mem j' k hk₁
      rw [hfirst, hrest, dictGet_dictSet]
      simp
    · have hhead : dictGet ((k₁, v₁) :: j') k = dictGet j' k := by simp [dictGet, h2]
      rw [hhead, dictGet_dictSet]
      simp only [h2, if_false]

/-- C6 counterexample: the table source extracts `Year = 2020`, the JSON-LD
(structured-data) source extracts `Year = 2021`; the final characteristics
mapping carries the JSON-LD value — the lowest-priority source did
overwrite a value produced by an earlier structural source. -/
theorem claim_C6_counterexample :
    dictGet (extract_characteristics [("Year", "2020")] [] [] [("Year", "2021")]) "Year"
      = some "2021" ∧ ("2021" : String) ≠ "2020" := by
  constructor
  · rfl
  · decide

/-- C6 (amended): the structured-data (JSON-LD) source is always merged in
last with `dict.update`, so on a key collision its value replaces the one
produced by the earlier structural sources; only keys absent from the
JSON-LD mapping keep their earlier values. -/
theorem claim_C6 (t l d j : PyDict) (hj : (j.map Prod.fst).Nodup) (k : String) :
    (∀ v, dictGet j k = some v →
      dictGet (extract_characteristics t l d j) k = some v) ∧
    (dictGet j k = none →
      dictGet (extract_characteristics t l d j) k = dictGet (preJsonldChars t l d) k) := by
  rw [extract_characteristics_eq]
  constructor
  · intro v hv
    rw [dictGet_dictUpdate _ _ hj, hv]
  · intro hnone
    rw [dictGet_dictUpdate _ _ hj, hnone]

theorem claim_C6_witness :
    dictGet (extract_characteristics [("Vol", "750ml")] [] [] [("ABV", "40")]) "ABV"
      = some "40" :=
  (claim_C6 [("Vol", "750ml")] [] [] [("ABV", "40")] (by decide) "ABV").1 "40" (by decide)

/-! ## Pipeline claims -/

/-- A minimal record passing validation, used as the base of the concrete
test records below. -/
def validBase : Record :=
  { product_id := F3.val "1", name := F3.val "Vodka", product_url := F3.val "https://x",
    scraped_at := F3.val 1, price_data := F3.absent, stock_data := F3.absent,
    assets := F3.absent, price := F3.absent, original_price := F3.absent,
    rating := F3.absent, discount_percentage := F3.absent, tags := F3.absent,
    marketing_tags := F3.absent, image_urls := F3.absent }

/-- Unfolding of an accepted `normalize` run: validation found no missing
required field and the result is the cleaned, defaulted, repaired record. -/
theorem normalize_ok (now : Int) (r r' : Record)
    (h : Pipelines.normalize now r = Except.ok r') :
    requiredFieldErrors r = [] ∧
    r' = DataCleaningPipeline.process_item (DefaultValuesPipeline.process_item now
      { r with price_data := clampPriceData r.price_data
               stock_data := clampStockData r.stock_data
               price := clampTopPrice r.price r.original_price }) := by
  unfold Pipelines.normalize ValidationPipeline.process_item at h
  by_cases he : (requiredFieldErrors r).isEmpty
  · refine ⟨List.isEmpty_iff.mp he, ?_⟩
    simp only [he, if_true, Except.map] at h
    exact (Except.ok.inj h).symm
  · simp only [he, if_false, Except.map] at h
    exact absurd h (by simp)

/-- The names of the missing required fields, in the iteration order of
`self.required_fields`. -/
def requiredMissingNames (r : Record) : List String :=
  (if r.product_id.truthyStr then [] else ["product_id"]) ++
  (if r.name.truthyStr then [] else ["name"]) ++
  (if r.product_url.truthyStr then [] else ["product_url"]) ++
  (if r.scraped_at.truthyInt then [] else ["scraped_at"])

theorem requiredFieldErrors_eq (r : Record) :
    requiredFieldErrors r
      = (requiredMissingNames r).map (fun f => "Missing required field: " ++ f) := by
  unfold requiredFieldErrors requiredMissingNames
  cases h1 : r.product_id.truthyStr <;> cases h2 : r.name.truthyStr <;>
    cases h3 : r.product_url.truthyStr <;> cases h4 : r.scraped_at.truthyInt <;>
    simp

/-- C1: a raw record in which any of the required fields `product_id`,
`name`, `product_url`, `scraped_at` is absent or empty (falsy) is rejected
by `normalize` — the three-stage pipeline stops at Stage 1, returning the
rejection instead of a record, so neither Defaulting nor Cleaning runs —
and the rejection reason aggregates the names of all the missing required
fields. -/
theorem claim_C1 (now : Int) (r : Record) (h : requiredMissingNames r ≠ []) :
    Pipelines.normalize now r
      = Except.error ((requiredMissingNames r).map (fun f => "Missing required field: " ++ f)) ∧
    (∀ f : String, f ∈ requiredMissingNames r ↔
      ((f = "product_id" ∧ r.product_id.truthyStr = false) ∨
       (f = "name" ∧ r.name.truthyStr = false) ∨
       (f = "product_url" ∧ r.product_url.truthyStr = false) ∨
       (f = "scraped_at" ∧ r.scraped_at.truthyInt = false))) := by
  constructor
  · have herr : requiredFieldErrors r ≠ [] := by
      rw [requiredFieldErrors_eq]
      simpa using h
    unfold Pipelines.normalize ValidationPipeline.process_item
    have : (requiredFieldErrors r).isEmpty = false := by
      simpa [List.isEmpty_iff] using herr
    simp [this, Except.map, requiredFieldErrors_eq, h]
  · intro f
    unfold requiredMissingNames
    cases h1 : r.product_id.truthyStr <;> cases h2 : r.name.truthyStr <;>
      cases h3 : r.product_url.truthyStr <;> cases h4 : r.scraped_at.truthyInt <;>
      simp

/-- The record of the C1 witness: `name` is whitespace-free but empty and
`scraped_at` is 0, so exactly those two are reported. -/
def c1Rec : Record := { validBase with name := F3.val "", scraped_at := F3.val 0 }

theorem claim_C1_witness :
    Pipelines.normalize 7 c1Rec
      = Except.error ((requiredMissingNames c1Rec).map (fun f => "Missing required field: " ++ f)) ∧
    ("name" ∈ requiredMissingNames c1Rec ↔
      (("name" = "product_id" ∧ c1Rec.product_id.truthyStr = false) ∨
       ("name" = "name" ∧ c1Rec.name.truthyStr = false) ∨
       ("name" = "product_url" ∧ c1Rec.product_url.truthyStr = false) ∨
       ("name" = "scraped_at" ∧ c1Rec.scraped_at.truthyInt = false))) :=
  ⟨(claim_C1 7 c1Rec (by decide)).1, (claim_C1 7 c1Rec (by decide)).2 "name"⟩


/-- The Stage-1 nested clamp fires when `current` and `original` are both
set, both non-zero and `current > original`. -/
theorem clampPriceData_fires (pd : PriceData) (c o : Rat) (hc : pd.current = F3.val c)
    (ho : pd.original = F3.val o) (hc0 : c ≠ 0) (ho0 : o ≠ 0) (hco : o < c) :
    clampPriceData (F3.val pd) = F3.val { pd with current := F3.val o } := by
  have htr : pd.truthy = true := by
    unfold PriceData.truthy
    rw [hc]
    simp [F3.isPresent]
  simp [clampPriceData, htr, hc, ho, F3.get, hc0, ho0, hco]

/-- The `price_data` sub-default pass on a truthy dict keeps `current` and
`original` untouched, leaves `currency` truthy and makes `sale_tag`
present. -/
theorem defaultPriceData_val_truthy (q : PriceData) (h : q.truthy = true) :
    ∃ q', defaultPriceData (F3.val q) = F3.val q' ∧ q'.current = q.current ∧
      q'.original = q.original ∧ q'.currency.truthyStr = true ∧
      q'.sale_tag.isPresent = true := by
  unfold defaultPriceData
  simp only [h, if_true]
  refine ⟨_, rfl, rfl, rfl, ?_, ?_⟩
  · by_cases hc : q.currency.get.any (fun s => !s.isEmpty) = true
    · simp only [hc, if_true]
      cases hq : q.currency with
      | absent => rw [hq] at hc; simp [F3.get] at hc
      | null => rw [hq] at hc; simp [F3.get] at hc
      | val s =>
        rw [hq] at hc
        simp only [F3.get, Option.any_some] at hc
        simp [F3.truthyStr, hc]
    · simp only [Bool.not_eq_true] at hc
      simp only [hc, if_false]
      simp [F3.truthyStr]
      decide
  · cases q.sale_tag <;> simp [F3.isPresent]

/-- C2 counterexample record: `price_data` has `current = 1` and
`original = 0` — both keys set (non-`None`) and `current > original`. -/
def c2Rec : Record :=
  { validBase with
    price_data := F3.val ⟨F3.val 1, F3.val 0, F3.absent, F3.absent, 0⟩ }

/-- C2 counterexample: the record passes validation and has nested
`current = 1 > 0 = original` with both keys set, yet the normalized record
keeps `current = 1 ≠ 0 = original`: the code's clamp additionally requires
both values to be truthy (non-zero), and `original` is `0`, so it is
skipped. -/
theorem claim_C2_counterexample :
    (Pipelines.normalize 0 c2Rec).map Record.price_data
      = Except.ok (F3.val ⟨F3.val 1, F3.val 0, F3.null, F3.val "RUB", 0⟩) ∧
    (1 : Rat) ≠ 0 := by decide

/-- C2 (amended): for an accepted record whose nested `price_data` has
`current` and `original` both set and non-zero (truthy) with
`current > original`, the normalized record satisfies `current = original`
(current is overwritten with original); the top-level
`price`/`original_price` clamp applies whenever both fields are present
(non-`None`) with `price > original_price`. -/
theorem claim_C2 (now : Int) (r r' : Record)
    (hn : Pipelines.normalize now r = Except.ok r') :
    (∀ pd c o, r.price_data = F3.val pd → pd.current = F3.val c → pd.original = F3.val o →
      c ≠ 0 → o ≠ 0 → o < c →
      ∃ pd', r'.price_data = F3.val pd' ∧ pd'.current = pd'.original ∧
        pd'.current = F3.val o) ∧
    (∀ p po, r.price = F3.val p → r.original_price = F3.val po → po < p →
      r'.price = r'.original_price) := by
  obtain ⟨he, hr⟩ := normalize_ok now r r' hn
  subst hr
  constructor
  · intro pd c o hpd hc ho hc0 ho0 hco
    have hclamp := clampPriceData_fires pd c o hc ho hc0 ho0 hco
    have htr1 : (PriceData.truthy { pd with current := F3.val o }) = true := by
      simp [PriceData.truthy, F3.isPresent]
    obtain ⟨q', hq', hqc, hqo, _, _⟩ := defaultPriceData_val_truthy _ htr1
    refine ⟨q', ?_, ?_, ?_⟩
    · show defaultPriceData (clampPriceData r.price_data) = F3.val q'
      rw [hpd, hclamp, hq']
    · rw [hqc, hqo, ho]
    · rw [hqc]
  · intro p po hp hpo hlt
    have hclamp : clampTopPrice r.price r.original_price = F3.val po := by
      unfold clampTopPrice
      rw [hp, hpo]
      simp [F3.get, hlt]
    show cleanNonneg (clampTopPrice r.price r.original_price) = cleanNonneg r.original_price
    rw [hclamp, hpo]

/-- The record of the C2 witness: `current = 100 > 50 = original`, both
non-zero, and top-level `price = 100 > 50 = original_price`. -/
def c2wRec : Record :=
  { validBase with
    price := F3.val 100
    original_price := F3.val 50
    price_data := F3.val ⟨F3.val 100, F3.val 50, F3.absent, F3.absent, 0⟩ }

/-- The normalized output of `c2wRec`. -/
def c2wOut : Record :=
  { validBase with
    price := F3.val 50
    original_price := F3.val 50
    price_data := F3.val ⟨F3.val 50, F3.val 50, F3.null, F3.val "RUB", 0⟩
    tags := F3.val []
    marketing_tags := F3.val []
    image_urls := F3.val [] }

theorem claim_C2_witness :
    (∃ pd', c2wOut.price_data = F3.val pd' ∧ pd'.current = pd'.original ∧
      pd'.current = F3.val 50) ∧
    c2wOut.price = c2wOut.original_price :=
  ⟨(claim_C2 0 c2wRec c2wOut (by decide)).1 ⟨F3.val 100, F3.val 50, F3.absent, F3.absent, 0⟩
      100 50 rfl rfl rfl (by decide) (by decide) (by decide),
   (claim_C2 0 c2wRec c2wOut (by decide)).2 100 50 rfl rfl (by decide)⟩

theorem wsTokensAux_ne_nil_of_acc (l : List Char) :
    ∀ acc : List Char, acc ≠ [] → wsTokensAux l acc ≠ [] := by
  induction l with
  | nil =>
    intro acc h
    simp [wsTokensAux, h]
  | cons c cs ih =>
    intro acc h
    unfold wsTokensAux
    by_cases hw : pyWs c
    · simp only [hw, if_true]
      simp [List.isEmpty_iff, h]
    · simp only [hw, if_false]
      exact ih (c :: acc) (by simp)

theorem wsTokensAux_ne_nil_of_any (l : List Char) :
    ∀ acc : List Char, l.any (fun c => !pyWs c) = true → wsTokensAux l acc ≠ [] := by
  induction l with
  | nil => intro acc h; simp at h
  | cons c cs ih =>
    intro acc h
    unfold wsTokensAux
    by_cases hw : pyWs c
    · have hcs : cs.any (fun c => !pyWs c) = true := by
        simp only [List.any_cons, hw, Bool.not_true, Bool.false_or] at h
        exact h
      simp only [hw, if_true]
      by_cases ha : acc.isEmpty
      · simp only [ha, if_true]
        exact ih [] hcs
      · simp only [ha, if_false]
        simp
    · simp only [hw, if_false]
      exact wsTokensAux_ne_nil_of_acc cs (c :: acc) (by simp)

theorem wsTokensAux_mem_ne_nil (l : List Char) :
    ∀ acc t, t ∈ wsTokensAux l acc → t ≠ [] := by
  induction l with
  | nil =>
    intro acc t ht
    unfold wsTokensAux at ht
    cases hacc : acc with
    | nil => simp [hacc] at ht
    | cons a as =>
      rw [hacc] at ht
      simp only [List.isEmpty_cons, if_false, Bool.false_eq_true, List.mem_singleton] at ht
      subst ht
      simp
  | cons c cs ih =>
    intro acc t ht
    unfold wsTokensAux at ht
    by_cases hw : pyWs c
    · simp only [hw, if_true] at ht
      cases hacc : acc with
      | nil =>
        rw [hacc] at ht
        simp only [List.isEmpty_nil, if_true] at ht
        exact ih [] t ht
      | cons a as =>
        rw [hacc] at ht
        simp only [List.isEmpty_cons, Bool.false_eq_true, if_false, List.mem_cons] at ht
        rcases ht with h1 | h1
        · subst h1; simp
        · exact ih [] t h1
    · simp only [hw, if_false, Bool.false_eq_true] at ht
      exact ih (c :: acc) t ht

theorem intercalate_cons_ne_nil (t : List Char) (ts : List (List Char)) (ht : t ≠ []) :
    List.intercalate [' '] (t :: ts) ≠ [] := by
  cases ts with
  | nil => simpa [List.intercalate, List.intersperse] using ht
  | cons u ts' =>
    simp only [List.intercalate, List.intersperse, List.flatten]
    simp [ht]

/-- A string containing at least one non-whitespace character does not
collapse to the empty string. -/
theorem collapseWs_ne_empty (s : String) (h : s.data.any (fun c => !pyWs c) = true) :
    (collapseWs s).isEmpty = false := by
  have hne : wsTokens s.data ≠ [] := wsTokensAux_ne_nil_of_any s.data [] h
  rw [Bool.eq_false_iff]
  intro hemp
  have : collapseWs s = "" := (String.isEmpty_iff _).mp hemp
  have hdata : List.intercalate [' '] (wsTokens s.data) = [] := by
    have := congrArg String.data this
    simpa [collapseWs] using this
  cases hts : wsTokens s.data with
  | nil => exact hne hts
  | cons t ts =>
    have hmem : t ∈ wsTokensAux s.data [] := by
      rw [show wsTokensAux s.data [] = wsTokens s.data from rfl, hts]
      exact List.mem_cons_self t ts
    have htne : t ≠ [] := wsTokensAux_mem_ne_nil s.data [] t hmem
    rw [hts] at hdata
    exact intercalate_cons_ne_nil t ts htne hdata

theorem required_truthy_of_no_errors (r : Record) (he : requiredFieldErrors r = []) :
    r.product_id.truthyStr = true ∧ r.name.truthyStr = true ∧
    r.product_url.truthyStr = true ∧ r.scraped_at.truthyInt = true := by
  unfold requiredFieldErrors at he
  cases h1 : r.product_id.truthyStr <;> cases h2 : r.name.truthyStr <;>
    cases h3 : r.product_url.truthyStr <;> cases h4 : r.scraped_at.truthyInt <;>
    simp [h1, h2, h3, h4] at he ⊢

/-- C3 counterexample record: `name` is whitespace-only, which is truthy
(non-empty) at validation time. -/
def c3Rec : Record := { validBase with name := F3.val "   " }

/-- C3 counterexample: a record whose `name` consists only of spaces is
accepted by `normalize` (Stage 1 only checks Python truthiness, and a
whitespace-only string is non-empty), but Stage 3's whitespace collapsing
turns that `name` into the empty string — so an accepted record can end the
pipeline with an empty required field. -/
theorem claim_C3_counterexample :
    (Pipelines.normalize 0 c3Rec).map Record.name = Except.ok (F3.val "") ∧
    (F3.val "").truthyStr = false := by decide

/-- C3 (amended): every record accepted by `normalize` ends the three-stage
pipeline with `product_id`, `product_url` and `scraped_at` present and
non-empty (truthy); `name` is present, and non-empty provided it contained
at least one non-whitespace character — a whitespace-only `name` passes
validation but is collapsed to the empty string by the Cleaning stage. -/
theorem claim_C3 (now : Int) (r r' : Record)
    (hn : Pipelines.normalize now r = Except.ok r') :
    r'.product_id.truthyStr = true ∧ r'.product_url.truthyStr = true ∧
    r'.scraped_at.truthyInt = true ∧
    (∀ s, r.name = F3.val s → s.data.any (fun c => !pyWs c) = true →
      r'.name.truthyStr = true) := by
  obtain ⟨he, hr⟩ := normalize_ok now r r' hn
  obtain ⟨h1, h2, h3, h4⟩ := required_truthy_of_no_errors r he
  subst hr
  refine ⟨h1, h3, ?_, ?_⟩
  · show (if r.scraped_at.get.isSome then r.scraped_at else F3.val now).truthyInt = true
    have hsome : r.scraped_at.get.isSome = true := by
      cases hs : r.scraped_at with
      | val n => simp [F3.get]
      | absent => rw [hs] at h4; simp [F3.truthyInt] at h4
      | null => rw [hs] at h4; simp [F3.truthyInt] at h4
    rw [if_pos hsome]
    exact h4
  · intro s hs hany
    show (match r.name with
      | F3.val s => F3.val (collapseWs s)
      | x => x).truthyStr = true
    rw [hs]
    simp [F3.truthyStr, collapseWs_ne_empty s hany]

/-- The normalized output of `validBase`. -/
def vbOut : Record :=
  { validBase with tags := F3.val [], marketing_tags := F3.val [], image_urls := F3.val [] }

theorem claim_C3_witness :
    vbOut.product_id.truthyStr = true ∧ vbOut.product_url.truthyStr = true ∧
    vbOut.scraped_at.truthyInt = true ∧ vbOut.name.truthyStr = true :=
  have h := claim_C3 0 validBase vbOut (by decide)
  ⟨h.1, h.2.1, h.2.2.1, h.2.2.2 "Vodka" rfl (by decide)⟩

theorem cleanRating_bounds (f : F3 Rat) (v : Rat) (h : cleanRating f = F3.val v) :
    0 ≤ v ∧ v ≤ 5 := by
  cases f with
  | absent => simp [cleanRating, F3.get] at h
  | null => simp [cleanRating, F3.get] at h
  | val v0 =>
    by_cases hout : v0 < 0 ∨ 5 < v0
    · simp [cleanRating, F3.get, hout] at h
    · simp [cleanRating, F3.get, hout] at h
      subst h
      push_neg at hout
      exact hout

theorem cleanDiscount_bounds (f : F3 Rat) (d : Rat) (h : cleanDiscount f = F3.val d) :
    0 ≤ pyInt d ∧ pyInt d ≤ 100 := by
  cases f with
  | absent => simp [cleanDiscount, F3.get] at h
  | null => simp [cleanDiscount, F3.get] at h
  | val d0 =>
    by_cases hout : pyInt d0 < 0 ∨ 100 < pyInt d0
    · simp [cleanDiscount, F3.get, hout] at h
      subst h
      refine ⟨?_, ?_⟩ <;> decide
    · simp [cleanDiscount, F3.get, hout] at h
      subst h
      push_neg at hout
      exact hout

/-- C4 counterexample record: `discount_percentage = 100.5`. -/
def c4Rec : Record := { validBase with discount_percentage := F3.val (mkRat 201 2) }

/-- C4 counterexample: the record is accepted and its
`discount_percentage = 100.5` survives the pipeline unchanged, violating
`discount_percentage ≤ 100`: the cleaning stage range-checks `int(value)`
(here `int(100.5) = 100`, in range) but stores back the original fractional
value. -/
theorem claim_C4_counterexample :
    (Pipelines.normalize 0 c4Rec).map Record.discount_percentage
      = Except.ok (F3.val (mkRat 201 2)) ∧
    ¬ (mkRat 201 2 ≤ 100) := by decide

/-- C4 (amended): for every accepted record, `rating` ends the pipeline
absent/`None` or in `[0, 5]` (an out-of-range rating is cleared, never
clamped), and `discount_percentage` ends absent/`None` or with
`0 ≤ int(d) ≤ 100` — the truncation toward zero of the stored value is in
range, so the value itself lies in `(-1, 101)`; a value whose truncation is
out of range is set to `0`, not clamped to a bound. -/
theorem claim_C4 (now : Int) (r r' : Record)
    (hn : Pipelines.normalize now r = Except.ok r') :
    (∀ v, r'.rating = F3.val v → 0 ≤ v ∧ v ≤ 5) ∧
    (∀ d, r'.discount_percentage = F3.val d → 0 ≤ pyInt d ∧ pyInt d ≤ 100) ∧
    (∀ d, r.discount_percentage = F3.val d → (pyInt d < 0 ∨ 100 < pyInt d) →
      r'.discount_percentage = F3.val 0) := by
  obtain ⟨he, hr⟩ := normalize_ok now r r' hn
  subst hr
  refine ⟨?_, ?_, ?_⟩
  · intro v hv
    exact cleanRating_bounds r.rating v hv
  · intro d hd
    exact cleanDiscount_bounds r.discount_percentage d hd
  · intro d hd hout
    show cleanDiscount r.discount_percentage = F3.val 0
    rw [hd]
    simp [cleanDiscount, F3.get, hout]

/-- The record of the C4 witness: in-range `rating` and
`discount_percentage`. -/
def c4wRec : Record :=
  { validBase with rating := F3.val 4, discount_percentage := F3.val 50 }

/-- The normalized output of `c4wRec`. -/
def c4wOut : Record :=
  { c4wRec with tags := F3.val [], marketing_tags := F3.val [], image_urls := F3.val [] }

theorem claim_C4_witness :
    ((0 : Rat) ≤ 4 ∧ (4 : Rat) ≤ 5) ∧ (0 ≤ pyInt 50 ∧ pyInt 50 ≤ 100) :=
  have h := claim_C4 0 c4wRec c4wOut (by decide)
  ⟨h.1 4 rfl, h.2.1 50 rfl⟩

theorem ifSome_isSome {α : Type} (f : F3 α) (d : α) :
    (if f.get.isSome then f else F3.val d).get.isSome = true := by
  cases f <;> simp [F3.get]

theorem defaultList_isSome (f : F3 (List String)) : (defaultList f).get.isSome = true := by
  cases f <;> simp [defaultList, F3.get]

theorem F3_isPresent_of_getSome {α : Type} (f : F3 α) (h : f.get.isSome = true) :
    f.isPresent = true := by
  cases f <;> simp [F3.get, F3.isPresent] at h ⊢

/-- The `stock_data` sub-default pass on a truthy dict leaves all four
declared sub-keys present and non-`None`. -/
theorem defaultStockData_val_truthy (sd : StockData) (h : sd.truthy = true) :
    ∃ sd', defaultStockData (F3.val sd) = F3.val sd' ∧ sd'.in_stock.get.isSome = true ∧
      sd'.count.get.isSome = true ∧ sd'.status.get.isSome = true ∧
      sd'.available_regions.get.isSome = true := by
  unfold defaultStockData
  simp only [h, if_true]
  exact ⟨_, rfl, ifSome_isSome _ _, ifSome_isSome _ _, ifSome_isSome _ _, ifSome_isSome _ _⟩

/-- The `assets` sub-default pass on a truthy dict leaves all five declared
sub-keys present (`main_image` possibly as explicit `None`). -/
theorem defaultAssets_val_truthy (a : Assets) (h : a.truthy = true) :
    ∃ a', defaultAssets (F3.val a) = F3.val a' ∧ a'.main_image.isPresent = true ∧
      a'.gallery_images.get.isSome = true ∧ a'.view_360.get.isSome = true ∧
      a'.video.get.isSome = true ∧ a'.cached_images.get.isSome = true := by
  unfold defaultAssets
  simp only [h, if_true]
  refine ⟨_, rfl, ?_, defaultList_isSome _, defaultList_isSome _, defaultList_isSome _,
    defaultList_isSome _⟩
  by_cases hm : a.main_image.get.isSome = true
  · simp only [hm, if_true]
    exact F3_isPresent_of_getSome _ hm
  · simp [hm, F3.isPresent]

/-- C5 counterexample record: `price_data` is the non-empty dict
`{currency: "EUR"}` and `stock_data` is the empty dict. -/
def c5Rec : Record :=
  { validBase with
    price_data := F3.val ⟨F3.absent, F3.absent, F3.absent, F3.val "EUR", 0⟩
    stock_data := F3.val ⟨F3.absent, F3.absent, F3.absent, F3.absent, 0⟩ }

/-- C5 counterexample: after the Defaulting stage, `price_data` still lacks
its declared sub-keys `current` and `original` (only `sale_tag` and
`currency` belong to its sub-default map), and the empty `stock_data` dict
is left entirely without sub-keys because the sub-pass runs only on truthy
(non-empty) dicts. -/
theorem claim_C5_counterexample :
    (DefaultValuesPipeline.process_item 0 c5Rec).price_data
      = F3.val ⟨F3.absent, F3.absent, F3.null, F3.val "EUR", 0⟩ ∧
    (DefaultValuesPipeline.process_item 0 c5Rec).stock_data
      = F3.val ⟨F3.absent, F3.absent, F3.absent, F3.absent, 0⟩ := by decide

/-- C5 (amended): the Defaulting sub-passes run only on nested dicts that
are present and non-empty (truthy); on such dicts, `stock_data` gets all
four declared sub-keys present and non-`None`, `assets` gets all five
declared sub-keys present (`main_image` as explicit `None` when missing, an
absent `sale_tag` likewise becomes explicit `None`), and `price_data` gets
`currency` (truthy) and `sale_tag` (present) — but its declared sub-keys
`current` and `original` are never defaulted and keep their input state. -/
theorem claim_C5 (now : Int) (r : Record) :
    (∀ sd, r.stock_data = F3.val sd → sd.truthy = true →
      ∃ sd', (DefaultValuesPipeline.process_item now r).stock_data = F3.val sd' ∧
        sd'.in_stock.get.isSome = true ∧ sd'.count.get.isSome = true ∧
        sd'.status.get.isSome = true ∧ sd'.available_regions.get.isSome = true) ∧
    (∀ a, r.assets = F3.val a → a.truthy = true →
      ∃ a', (DefaultValuesPipeline.process_item now r).assets = F3.val a' ∧
        a'.main_image.isPresent = true ∧ a'.gallery_images.get.isSome = true ∧
        a'.view_360.get.isSome = true ∧ a'.video.get.isSome = true ∧
        a'.cached_images.get.isSome = true) ∧
    (∀ pd, r.price_data = F3.val pd → pd.truthy = true →
      ∃ pd', (DefaultValuesPipeline.process_item now r).price_data = F3.val pd' ∧
        pd'.current = pd.current ∧ pd'.original = pd.original ∧
        pd'.currency.truthyStr = true ∧ pd'.sale_tag.isPresent = true) := by
  refine ⟨?_, ?_, ?_⟩
  · intro sd hsd htr
    show ∃ sd', defaultStockData r.stock_data = F3.val sd' ∧ _
    rw [hsd]
    exact defaultStockData_val_truthy sd htr
  · intro a ha htr
    show ∃ a', defaultAssets r.assets = F3.val a' ∧ _
    rw [ha]
    exact defaultAssets_val_truthy a htr
  · intro pd hpd htr
    show ∃ pd', defaultPriceData r.price_data = F3.val pd' ∧ _
    rw [hpd]
    exact defaultPriceData_val_truthy pd htr

/-- The record of the C5 witness: all three nested dicts truthy. -/
def c5wRec : Record :=
  { validBase with
    stock_data := F3.val ⟨F3.val true, F3.absent, F3.absent, F3.absent, 0⟩
    assets := F3.val ⟨F3.absent, F3.val ["u"], F3.absent, F3.absent, F3.absent, 0⟩
    price_data := F3.val ⟨F3.val 10, F3.absent, F3.absent, F3.absent, 0⟩ }

theorem claim_C5_witness :
    ((DefaultValuesPipeline.process_item 0 c5wRec).stock_data.get.map
      (fun sd => sd.in_stock.get.isSome && sd.count.get.isSome && sd.status.get.isSome &&
        sd.available_regions.get.isSome)) = some true := by
  obtain ⟨sd', heq, h1, h2, h3, h4⟩ :=
    (claim_C5 0 c5wRec).1 ⟨F3.val true, F3.absent, F3.absent, F3.absent, 0⟩ rfl (by decide)
  rw [heq]
  show some (sd'.in_stock.get.isSome && sd'.count.get.isSome && sd'.status.get.isSome &&
    sd'.available_regions.get.isSome) = some true
  rw [h1, h2, h3, h4]
  rfl

theorem pyDedupAux_nodup (xs : List String) :
    ∀ seen, (pyDedupAux seen xs).Nodup ∧ ∀ x ∈ pyDedupAux seen xs, x ∉ seen := by
  induction xs with
  | nil => intro seen; simp [pyDedupAux]
  | cons x xs ih =>
    intro seen
    by_cases hx : x ∈ seen
    · simp only [pyDedupAux, if_pos hx]
      exact ih seen
    · simp only [pyDedupAux, if_neg hx]
      obtain ⟨hnd, hmem⟩ := ih (x :: seen)
      constructor
      · rw [List.nodup_cons]
        exact ⟨fun hc => (hmem x hc) (List.mem_cons_self x seen), hnd⟩
      · intro y hy
        rcases List.mem_cons.mp hy with rfl | hy'
        · exact hx
        · exact fun hys => (hmem y hy') (List.mem_cons_of_mem x hys)

theorem pyDedup_nodup (xs : List String) : (pyDedup xs).Nodup :=
  (pyDedupAux_nodup xs []).1

theorem chLe_total (a : List Char) : ∀ b, chLe a b = true ∨ chLe b a = true := by
  induction a with
  | nil => intro b; left; rfl
  | cons x xs ih =>
    intro b
    cases b with
    | nil => right; rfl
    | cons y ys =>
      by_cases h1 : x.toNat < y.toNat
      · left; simp [chLe, h1]
      · by_cases h2 : y.toNat < x.toNat
        · right; simp [chLe, h2]
        · rcases ih ys with h | h
          · left; simp [chLe, h1, h2, h]
          · right; simp [chLe, h1, h2, h]

theorem strLe_total (a b : String) : strLe a b = true ∨ strLe b a = true :=
  chLe_total a.data b.data

theorem chain_insertSorted (x : String) :
    ∀ l, List.Chain' (fun a b => strLe a b = true) l →
      List.Chain' (fun a b => strLe a b = true) (insertSorted x l) := by
  intro l
  induction l with
  | nil => intro _; simp [insertSorted]
  | cons y ys ih =>
    intro h
    unfold insertSorted
    by_cases hxy : strLe x y = true
    · simp only [hxy, if_true]
      exact List.chain'_cons.mpr ⟨hxy, h⟩
    · rw [if_neg hxy]
      have hyx : strLe y x = true := (strLe_total x y).resolve_left (by simpa using hxy)
      have htail : List.Chain' (fun a b => strLe a b = true) ys := (List.chain'_cons'.mp h).2
      rw [List.chain'_cons']
      refine ⟨?_, ih htail⟩
      intro z hz
      cases ys with
      | nil =>
        simp [insertSorted] at hz
        subst hz
        exact hyx
      | cons u us =>
        unfold insertSorted at hz
        by_cases hxu : strLe x u = true
        · simp only [hxu, if_true, List.head?_cons, Option.mem_def, Option.some.injEq] at hz
          subst hz
          exact hyx
        · simp only [hxu, if_false, Bool.false_eq_true, List.head?_cons, Option.mem_def,
            Option.some.injEq] at hz
          subst hz
          exact (List.chain'_cons'.mp h).1 u rfl

theorem insertSorted_perm (x : String) : ∀ l, (insertSorted x l).Perm (x :: l) := by
  intro l
  induction l with
  | nil => exact List.Perm.refl _
  | cons y ys ih =>
    unfold insertSorted
    by_cases h : strLe x y = true
    · simp only [h, if_true]
      exact List.Perm.refl _
    · simp only [h, if_false]
      exact (List.Perm.cons y ih).trans (List.Perm.swap x y ys)

theorem sortStrs_perm : ∀ l : List String, (sortStrs l).Perm l := by
  intro l
  induction l with
  | nil => exact List.Perm.refl _
  | cons x xs ih =>
    unfold sortStrs
    exact (insertSorted_perm x (sortStrs xs)).trans (List.Perm.cons x ih)

theorem sortStrs_nodup (l : List String) (h : l.Nodup) : (sortStrs l).Nodup :=
  ((sortStrs_perm l).nodup_iff).mpr h

theorem sortStrs_chain : ∀ l : List String,
    List.Chain' (fun a b => strLe a b = true) (sortStrs l) := by
  intro l
  induction l with
  | nil => simp [sortStrs]
  | cons x xs ih =>
    unfold sortStrs
    exact chain_insertSorted x (sortStrs xs) ih

theorem cleanTags_nodup (xs : List String) : (cleanTags xs).Nodup :=
  sortStrs_nodup _ (pyDedup_nodup _)

theorem cleanTags_chain (xs : List String) :
    List.Chain' (fun a b => strLe a b = true) (cleanTags xs) :=
  sortStrs_chain _

/-- A cleaned tag-like field holds a duplicate-free, sorted list. -/
theorem cleanTagField_props (f : F3 (List String)) (l : List String)
    (h : cleanTagField f = F3.val l) :
    l.Nodup ∧ List.Chain' (fun a b => strLe a b = true) l := by
  cases f with
  | absent => simp [cleanTagField] at h
  | null => simp [cleanTagField] at h
  | val l0 =>
    cases l0 with
    | nil =>
      simp only [cleanTagField] at h
      injection h with h'
      subst h'
      simp
    | cons x xs =>
      simp only [cleanTagField] at h
      injection h with h'
      subst h'
      exact ⟨cleanTags_nodup _, cleanTags_chain _⟩

/-- C8 counterexample record: two marketing tags equal up to case. -/
def c8Rec : Record := { validBase with marketing_tags := F3.val ["A", "a"] }

/-- C8 counterexample: after the full pipeline, `marketing_tags` still
contains two distinct entries `"A"` and `"a"` whose trimmed values are
equal under case-insensitive comparison — the code deduplicates
case-sensitively on the stripped value, not case-insensitively. -/
theorem claim_C8_counterexample :
    (Pipelines.normalize 0 c8Rec).map Record.marketing_tags
      = Except.ok (F3.val ["A", "a"]) ∧
    pyLower (pyStrip "A") = pyLower (pyStrip "a") ∧ ("A" : String) ≠ "a" := by decide

/-- C8 (amended): after the Cleaning stage the tag-like list fields
(`tags`, `marketing_tags`) contain no two equal entries — deduplication is
case-SENSITIVE on the trimmed values — and are sorted in ascending
code-point (alphabetical) order. -/
theorem claim_C8 (now : Int) (r r' : Record)
    (hn : Pipelines.normalize now r = Except.ok r') :
    (∀ l, r'.marketing_tags = F3.val l →
      l.Nodup ∧ List.Chain' (fun a b => strLe a b = true) l) ∧
    (∀ l, r'.tags = F3.val l →
      l.Nodup ∧ List.Chain' (fun a b => strLe a b = true) l) := by
  obtain ⟨he, hr⟩ := normalize_ok now r r' hn
  subst hr
  constructor
  · intro l hl
    exact cleanTagField_props (defaultList r.marketing_tags) l hl
  · intro l hl
    exact cleanTagField_props (defaultList r.tags) l hl

/-- The record of the C8 witness. -/
def c8wRec : Record := { validBase with tags := F3.val ["b", "a", "a"] }

/-- The normalized output of `c8wRec`. -/
def c8wOut : Record :=
  { validBase with
    tags := F3.val ["a", "b"]
    marketing_tags := F3.val []
    image_urls := F3.val [] }

theorem claim_C8_witness :
    (["a", "b"] : List String).Nodup ∧
    List.Chain' (fun a b => strLe a b = true) ["a", "b"] :=
  (claim_C8 0 c8wRec c8wOut (by decide)).2 ["a", "b"] rfl

theorem getNextAux_spec1 (proxies blacklist : List String) (hne : proxies ≠ []) :
    ∀ fuel cursor p, (getNextAux proxies blacklist cursor fuel).1 = some p →
      p ∉ blacklist ∧ p ∈ proxies := by
  intro fuel
  induction fuel with
  | zero => intro cursor p h; simp [getNextAux] at h
  | succ n ih =>
    intro cursor p h
    unfold getNextAux at h
    by_cases hb : proxies.getD (cursor % proxies.length) "" ∈ blacklist
    · rw [if_pos hb] at h
      exact ih (cursor + 1) p h
    · rw [if_neg hb] at h
      injection h with h'
      subst h'
      refine ⟨hb, ?_⟩
      have hlen : 0 < proxies.length := List.length_pos.mpr hne
      have hidx : cursor % proxies.length < proxies.length := Nat.mod_lt _ hlen
      rw [List.getD_eq_getElem _ _ hidx]
      exact List.getElem_mem hidx

theorem getNextAux_none_of_all (proxies blacklist : List String) (hne : proxies ≠ [])
    (hall : ∀ p ∈ proxies, p ∈ blacklist) :
    ∀ fuel cursor, (getNextAux proxies blacklist cursor fuel).1 = none := by
  intro fuel
  induction fuel with
  | zero => intro cursor; rfl
  | succ n ih =>
    intro cursor
    unfold getNextAux
    have hlen : 0 < proxies.length := List.length_pos.mpr hne
    have hidx : cursor % proxies.length < proxies.length := Nat.mod_lt _ hlen
    have hmem : proxies.getD (cursor % proxies.length) "" ∈ proxies := by
      rw [List.getD_eq_getElem _ _ hidx]
      exact List.getElem_mem hidx
    rw [if_pos (hall _ hmem)]
    exact ih (cursor + 1)

theorem getNextAux_isSome (proxies blacklist : List String) :
    ∀ fuel cursor,
      (∃ k, k < fuel ∧ proxies.getD ((cursor + k) % proxies.length) "" ∉ blacklist) →
      (getNextAux proxies blacklist cursor fuel).1.isSome = true := by
  intro fuel
  induction fuel with
  | zero =>
    rintro cursor ⟨k, hk, _⟩
    exact absurd hk (Nat.not_lt_zero k)
  | succ n ih =>
    rintro cursor ⟨k, hk, hnb⟩
    unfold getNextAux
    by_cases hb : proxies.getD (cursor % proxies.length) "" ∈ blacklist
    · rw [if_pos hb]
      apply ih (cursor + 1)
      cases k with
      | zero => exact absurd hb (by simpa using hnb)
      | succ k' =>
        refine ⟨k', Nat.lt_of_succ_lt_succ hk, ?_⟩
        rw [show cursor + 1 + k' = cursor + (k' + 1) by omega]
        exact hnb
    · rw [if_neg hb]
      rfl

theorem exists_nonblacklisted_index (proxies blacklist : List String) (cursor : Nat)
    (hne : proxies ≠ []) (p : String) (hp : p ∈ proxies) (hnb : p ∉ blacklist) :
    ∃ k, k < proxies.length ∧
      proxies.getD ((cursor + k) % proxies.length) "" ∉ blacklist := by
  obtain ⟨i, hi, hpi⟩ := List.mem_iff_getElem.mp hp
  have hlen : 0 < proxies.length := List.length_pos.mpr hne
  have hcm : cursor % proxies.length < proxies.length := Nat.mod_lt _ hlen
  refine ⟨(i + proxies.length - cursor % proxies.length) % proxies.length,
    Nat.mod_lt _ hlen, ?_⟩
  have hidx : (cursor + (i + proxies.length - cursor % proxies.length) % proxies.length)
      % proxies.length = i := by
    rw [Nat.add_mod cursor _ proxies.length,
      Nat.mod_eq_of_lt (Nat.mod_lt _ hlen)]
    rw [show cursor % proxies.length + (i + proxies.length - cursor % proxies.length)
          % proxies.length
        = cursor % proxies.length % proxies.length
          + (i + proxies.length - cursor % proxies.length) % proxies.length by
      rw [Nat.mod_mod_of_dvd _ (dvd_refl _)]]
    rw [← Nat.add_mod]
    rw [show cursor % proxies.length + (i + proxies.length - cursor % proxies.length)
        = i + proxies.length by omega]
    rw [Nat.add_mod_right]
    exact Nat.mod_eq_of_lt hi
  rw [hidx, List.getD_eq_getElem _ _ hi, hpi]
  exact hnb

theorem get_next_proxy_some (s : ProxyState) (p : String)
    (h : (ProxyMiddleware.get_next_proxy s).1 = some p) :
    p ∉ s.blacklist ∧ p ∈ s.proxies := by
  unfold ProxyMiddleware.get_next_proxy at h
  by_cases hp : ProxyMiddleware.hasPool s = true
  · rw [if_pos hp] at h
    have hne : s.proxies ≠ [] := by
      unfold ProxyMiddleware.hasPool at hp
      simp only [Bool.and_eq_true, Bool.not_eq_true'] at hp
      simpa [List.isEmpty_iff] using hp.2
    exact getNextAux_spec1 s.proxies s.blacklist hne s.proxies.length s.cursor p h
  · rw [if_neg hp] at h
    simp at h

theorem get_next_proxy_none_iff (s : ProxyState) :
    (ProxyMiddleware.get_next_proxy s).1 = none ↔
      (s.enabled = false ∨ s.proxies = [] ∨ ∀ p ∈ s.proxies, p ∈ s.blacklist) := by
  unfold ProxyMiddleware.get_next_proxy
  by_cases hen : s.enabled = true
  · by_cases hemp : s.proxies.isEmpty = true
    · have hnil : s.proxies = [] := List.isEmpty_iff.mp hemp
      rw [if_neg (by simp [ProxyMiddleware.hasPool, hemp])]
      simp [hnil]
    · have hne : s.proxies ≠ [] := by simpa [List.isEmpty_iff] using hemp
      rw [if_pos (by simp [ProxyMiddleware.hasPool, hen, hemp])]
      constructor
      · intro h
        refine Or.inr (Or.inr ?_)
        by_contra hc
        push_neg at hc
        obtain ⟨p, hp, hnb⟩ := hc
        obtain ⟨k, hk, hknb⟩ :=
          exists_nonblacklisted_index s.proxies s.blacklist s.cursor hne p hp hnb
        have hsome := getNextAux_isSome s.proxies s.blacklist s.proxies.length s.cursor
          ⟨k, hk, hknb⟩
        rw [h] at hsome
        simp at hsome
      · intro h
        rcases h with h | h | h
        · rw [hen] at h
          exact absurd h (by simp)
        · exact absurd h hne
        · exact getNextAux_none_of_all s.proxies s.blacklist hne h s.proxies.length s.cursor
  · have hfalse : s.enabled = false := by simpa using hen
    rw [if_neg (by simp [ProxyMiddleware.hasPool, hfalse])]
    simp [hfalse]

theorem getNextAux_cursor_le (proxies blacklist : List String) :
    ∀ fuel cursor, (getNextAux proxies blacklist cursor fuel).2 ≤ cursor + fuel := by
  intro fuel
  induction fuel with
  | zero => intro cursor; simp [getNextAux]
  | succ n ih =>
    intro cursor
    unfold getNextAux
    by_cases hb : proxies.getD (cursor % proxies.length) "" ∈ blacklist
    · rw [if_pos hb]
      calc (getNextAux proxies blacklist (cursor + 1) n).2 ≤ cursor + 1 + n := ih (cursor + 1)
        _ = cursor + (n + 1) := by omega
    · rw [if_neg hb]
      show cursor + 1 ≤ cursor + (n + 1)
      omega

theorem get_next_proxy_cursor (s : ProxyState) :
    (ProxyMiddleware.get_next_proxy s).2.cursor ≤ s.cursor + s.proxies.length := by
  unfold ProxyMiddleware.get_next_proxy
  by_cases hp : ProxyMiddleware.hasPool s = true
  · rw [if_pos hp]
    exact getNextAux_cursor_le s.proxies s.blacklist s.proxies.length s.cursor
  · rw [if_neg hp]
    exact Nat.le_add_right _ _

theorem acquire_blacklist_eq (s : ProxyState) :
    (ProxyMiddleware.get_next_proxy s).2.blacklist = s.blacklist := by
  unfold ProxyMiddleware.get_next_proxy
  by_cases hp : ProxyMiddleware.hasPool s = true
  · rw [if_pos hp]
  · rw [if_neg hp]

theorem mem_blacklist_runOps (q : String) :
    ∀ ops (s : ProxyState), q ∈ s.blacklist → (∀ o ∈ ops, o ≠ PoolOp.success q) →
      q ∈ (runOps s ops).blacklist := by
  intro ops
  induction ops with
  | nil => intro s hq _; exact hq
  | cons op ops ih =>
    intro s hq hops
    cases op with
    | acquire =>
      apply ih _ ?_ (fun o ho => hops o (List.mem_cons_of_mem _ ho))
      rw [acquire_blacklist_eq]
      exact hq
    | success p =>
      have hpq : q ≠ p := by
        intro he
        exact (hops _ (List.mem_cons_self _ _)) (by rw [he])
      apply ih _ ?_ (fun o ho => hops o (List.mem_cons_of_mem _ ho))
      show q ∈ s.blacklist.filter (fun x => x ≠ p)
      rw [List.mem_filter]
      exact ⟨hq, by simpa using hpq⟩
    | failure p =>
      apply ih _ ?_ (fun o ho => hops o (List.mem_cons_of_mem _ ho))
      show q ∈ blAdd s.blacklist p
      unfold blAdd
      by_cases hm : p ∈ s.blacklist
      · rw [if_pos hm]; exact hq
      · rw [if_neg hm]; exact List.mem_cons_of_mem _ hq

/-- C9: in every proxy-pool state, `_get_next_proxy` (acquire) never
returns a blacklisted proxy and returns `None` exactly when the middleware
is disabled, the pool is empty, or every proxy is blacklisted; one call
advances the rotation cursor by at most one full turn (scanning at most
once around the rotation); a proxy blacklisted by `process_exception`
(report_failure) is never returned by a later acquire — across any
sequence of pool operations that does not report a success for it — and
after `process_response` (report_success) it is no longer blacklisted,
i.e. eligible again. -/
theorem claim_C9 :
    (∀ s p, (ProxyMiddleware.get_next_proxy s).1 = some p →
      p ∉ s.blacklist ∧ p ∈ s.proxies) ∧
    (∀ s, (ProxyMiddleware.get_next_proxy s).1 = none ↔
      (s.enabled = false ∨ s.proxies = [] ∨ ∀ p ∈ s.proxies, p ∈ s.blacklist)) ∧
    (∀ s, (ProxyMiddleware.get_next_proxy s).2.cursor ≤ s.cursor + s.proxies.length) ∧
    (∀ s q ops, (∀ o ∈ ops, o ≠ PoolOp.success q) →
      (ProxyMiddleware.get_next_proxy
        (runOps (ProxyMiddleware.process_exception s q) ops)).1 ≠ some q) ∧
    (∀ s q, q ∉ (ProxyMiddleware.process_response s q).blacklist) := by
  refine ⟨get_next_proxy_some, get_next_proxy_none_iff, get_next_proxy_cursor, ?_, ?_⟩
  · intro s q ops hops hsome
    have hq0 : q ∈ (ProxyMiddleware.process_exception s q).blacklist := by
      show q ∈ blAdd s.blacklist q
      unfold blAdd
      by_cases hm : q ∈ s.blacklist
      · rw [if_pos hm]; exact hm
      · rw [if_neg hm]; exact List.mem_cons_self _ _
    have hq : q ∈ (runOps (ProxyMiddleware.process_exception s q) ops).blacklist :=
      mem_blacklist_runOps q ops _ hq0 hops
    exact (get_next_proxy_some _ q hsome).1 hq
  · intro s q
    show q ∉ s.blacklist.filter (fun x => x ≠ q)
    intro hq
    rw [List.mem_filter] at hq
    simpa using hq.2

/-- The pool state of the C9 witness: three proxies, none blacklisted. -/
def proxyS0 : ProxyState :=
  { enabled := true, proxies := ["P1", "P2", "P3"], cursor := 0, blacklist := [],
    total := 0, success := 0, failed := 0 }

theorem claim_C9_witness :
    ("P1" ∉ proxyS0.blacklist ∧ "P1" ∈ proxyS0.proxies) ∧
    (ProxyMiddleware.get_next_proxy
      (runOps (ProxyMiddleware.process_exception proxyS0 "P1") [PoolOp.acquire])).1
        ≠ some "P1" :=
  ⟨claim_C9.1 proxyS0 "P1" (by decide),
   claim_C9.2.2.2.1 proxyS0 "P1" [PoolOp.acquire] (by decide)⟩
